import Mathlib

/-!
Verification of the ai-gm-pipeline repository: a retrieval-augmented
question-answering pipeline over PDF rulebooks.  The development shallowly
embeds the Python sources (`process_pdfs.py`, `retriever.py`,
`llm_integration.py`, `config.py`, `main.py`) as executable Lean
definitions and proves the specification's claims about them.
-/

namespace AIGM

/-! ### Configuration constants

From `config.py` and the module-level constants of `process_pdfs.py` and
`retriever.py`.  Only the values the claims touch are embedded. -/

/-- From `config.py`: the embedding model identifier the `Retriever` is
constructed with (`retriever.py`, `Retriever.__init__`). -/
def EMBEDDING_MODEL_NAME : String := "all-MPNET-base-v2"

/-- From `config.py`: default number of results for `Retriever.search`. -/
def DEFAULT_N_RESULTS : Nat := 3

/-- From `process_pdfs.py` line 26: the embedding model the ingestion script
instantiates (`embedding_model = SentenceTransformer('all-MiniLM-L6-v2')`)
and uses to embed every stored chunk. -/
def ingestion_embedding_model_name : String := "all-MiniLM-L6-v2"

/-- From `retriever.py`, `Retriever.__init__`: the model identifier the
Retriever loads (`SentenceTransformer(EMBEDDING_MODEL_NAME)`) and uses in
`search` to embed the query text. -/
def retriever_embedding_model_name : String := EMBEDDING_MODEL_NAME

/-! ### Text extraction (`process_pdfs.py`, `extract_text_from_pdf`)

A pdfplumber page is embedded as what the code can observe of it: the
result of `page.extract_text()` (which may be absent — `None` in Python —
rather than a string) and the result of `page.extract_tables()` (a list of
tables, each a list of rows, each row a list of possibly-absent cells).
The code only ever calls `extract_text`; the tables field exists so that
the spec's claimed table handling can be stated and compared. -/

/-- Whitespace as Python's `str.strip` sees it (the ASCII whitespace
characters: space, tab, newline, carriage return, vertical tab, form
feed). -/
def isPyWhitespace (c : Char) : Bool :=
  c = ' ' || c = '\t' || c = '\n' || c = '\r' || c = '\x0b' || c = '\x0c'

/-- Embeds Python's `str.strip()`: removes leading and trailing
whitespace. -/
def pyStrip (s : String) : String :=
  String.mk ((((s.data.dropWhile isPyWhitespace).reverse.dropWhile isPyWhitespace).reverse))

structure Page where
  extract_text : Option String
  extract_tables : List (List (List (Option String)))
deriving DecidableEq

/-- Embeds the loop body of `extract_text_from_pdf`: pages are visited in
order, and `text += page.extract_text() + f"\n(Page{i + 1})\n"` appends the
page's text and a page marker.  In Python, `None + str` raises `TypeError`,
so a page whose `extract_text()` is absent makes the whole call fail; this
is the `none` outcome.  The index argument is the 1-based page number used
in the marker. -/
def extractPagesFrom : Nat → List Page → Option String
  | _, [] => some ""
  | i, p :: ps =>
    match p.extract_text, extractPagesFrom (i + 1) ps with
    | some t, some rest => some (t ++ "\n(Page" ++ toString i ++ ")\n" ++ rest)
    | _, _ => none

/-- Embeds `extract_text_from_pdf` (`process_pdfs.py` lines 108-127): the
concatenation over all pages of page text plus marker, trimmed of
leading/trailing whitespace (`text.strip()`). -/
def extract_text_from_pdf (pdf : List Page) : Option String :=
  (extractPagesFrom 1 pdf).map pyStrip

/-! ### The spec's description of extraction, for comparison

These definitions follow the specification's words (§4.2), not the source:
"for each page: extracts plain text; extracts any tabular structures on
that page and renders each as a delimiter-joined grid, skipping fully blank
rows; concatenates plain text followed by rendered tables followed by a
page-boundary marker.  Returns the concatenation across all pages, trimmed
of leading/trailing whitespace."  They exist only to be compared with
`extract_text_from_pdf` above. -/

/-- Written from the spec: one table row rendered as a delimiter-joined
grid line (absent cells become empty strings). -/
def specRenderRow (row : List (Option String)) : String :=
  String.intercalate " | " (row.map (fun c => c.getD ""))

/-- Written from the spec: a row is fully blank when every cell is absent
or whitespace-only. -/
def specRowIsBlank (row : List (Option String)) : Bool :=
  row.all (fun c => pyStrip (c.getD "") = "")

/-- Written from the spec: a table rendered as a grid, fully blank rows
skipped. -/
def specRenderTable (t : List (List (Option String))) : String :=
  String.intercalate "\n" ((t.filter (fun r => !(specRowIsBlank r))).map specRenderRow)

/-- Written from the spec: a page contributes its plain text, then each of
its rendered tables, then the page-boundary marker. -/
def specExtractPage (i : Nat) (p : Page) : String :=
  (p.extract_text.getD "") ++
    String.join (p.extract_tables.map (fun t => "\n" ++ specRenderTable t)) ++
    "\n(Page" ++ toString (i + 1) ++ ")\n"

/-- Written from the spec: the concatenation across all pages, trimmed. -/
def specExtractWithTables (pdf : List Page) : String :=
  pyStrip (String.join (pdf.enum.map (fun ip => specExtractPage ip.1 ip.2)))

/-- Written from the spec minus its table clause, as the observed behaviour
of the code forces: each page contributes its plain text followed by the
page marker, the whole trimmed; extraction fails if any page's text is
absent. -/
def specExtractNoTables (pdf : List Page) : Option String :=
  if pdf.all (fun p => p.extract_text.isSome) then
    some (pyStrip (String.join
      (pdf.enum.map
        (fun ip => ip.2.extract_text.getD "" ++ "\n(Page" ++ toString (ip.1 + 1) ++ ")\n"))))
  else
    none

/-! ### ANSI stripping (`llm_integration.py`, `clean_ansi`)

`clean_ansi` is `re.sub(r'\x1b\[[0-9;]*[mK]', '', text)`.  The regex is
embedded as a left-to-right scanner: at each position, an escape character
followed by a bracket, a maximal run of digits/semicolons and then an `m`
or `K` is a match and is removed; otherwise one character is emitted and
scanning resumes at the next position (exactly `re.sub`'s leftmost,
non-overlapping semantics — greedy `[0-9;]*` needs no backtracking here
because the parameter characters and the final characters are disjoint).
The fuel argument starts at the input length; every step consumes at least
one input character, so it never runs out. -/

def isAnsiParam (c : Char) : Bool := c.isDigit || c = ';'

def cleanAnsiGo : Nat → List Char → List Char
  | 0, l => l
  | _ + 1, [] => []
  | fuel + 1, '\x1b' :: '[' :: rest =>
    (match rest.dropWhile isAnsiParam with
     | t :: rest2 =>
       if t = 'm' || t = 'K' then cleanAnsiGo fuel rest2
       else '\x1b' :: cleanAnsiGo fuel ('[' :: rest)
     | [] => '\x1b' :: cleanAnsiGo fuel ('[' :: rest))
  | fuel + 1, c :: rest => c :: cleanAnsiGo fuel rest

/-- Embeds `LLMIntegration.clean_ansi`: removes ANSI escape sequences
matching `\x1b\[[0-9;]*[mK]` from the text. -/
def clean_ansi (s : String) : String := String.mk (cleanAnsiGo s.data.length s.data)

/-! ### The Chunker

Modelled from the spec: the Chunker used by `chunk_and_store_pdf` is
langchain's `RecursiveCharacterTextSplitter`, third-party library code that
is not part of this repository's sources — only its invocation
(`chunk_size=512, chunk_overlap=50`) appears in `process_pdfs.py` line 155.
The model follows the spec's §3/§4.3 contract: `chunk(text, max_size,
overlap)` splits `text` into pieces no longer than `max_size`, and adjacent
chunks share `overlap` characters of trailing/leading context taken from
the original text.  The model realises this with the contract's
finest-grained (character-level) splitting boundary: consecutive chunks
start `max_size - overlap` characters apart, so each chunk repeats the last
`overlap` characters of its predecessor's span.  Text is a list of
characters; no character of the input is dropped or altered. -/

def chunkGo (max_size step : Nat) : Nat → List Char → List (List Char)
  | _, [] => []
  | 0, a :: as => [a :: as]
  | fuel + 1, a :: as =>
    if (a :: as).length ≤ max_size then [a :: as]
    else (a :: as).take max_size :: chunkGo max_size step fuel ((a :: as).drop step)

/-- Modelled from the spec (§4.3): the Chunker's contract
`chunk(text, max_size, overlap) -> ordered sequence of string`.  The fuel
argument of `chunkGo` starts at the text length; with a positive stride
each round consumes at least one character, so the fuel never runs out. -/
def chunk (text : List Char) (max_size overlap : Nat) : List (List Char) :=
  chunkGo max_size (max_size - overlap) text.length text

/-- Concatenation of chunks with the overlapping characters removed: the
first chunk whole, every later chunk with its leading `overlap` characters
(shared with its predecessor) dropped. -/
def reassemble (overlap : Nat) : List (List Char) → List Char
  | [] => []
  | c :: rest => c ++ (rest.map (fun d => d.drop overlap)).flatten

/-! ### The Retriever (`retriever.py`)

`Retriever.search` embeds the query, queries the ChromaDB collection, and
reshapes the result; any exception anywhere inside the `try` block is
caught and `{"documents": []}` is returned.  The two external collaborators
— `self.embedding_model.encode` and `self.collection.query` — are embedded
as oracle functions returning `Except`, whose `error` case stands for a
raised Python exception.  Both are read-only: the method performs no write
to the collection, the ledger or any other state, so `search` is a pure
function of its oracles and arguments. -/

/-- The value `Retriever.search` returns: the success path builds a dict
with keys `"documents"` and `"metadatas"`; the exception path returns
`{"documents": []}`, with no `"metadatas"` key — embedded as `none`. -/
structure SearchResult (M : Type) where
  documents : List (List String)
  metadatas : Option (List (List M))
deriving DecidableEq

namespace Retriever

/-- Embeds `Retriever.search` (`retriever.py` lines 26-51).  `V` is the type
of query embeddings, `M` the type of stored metadata entries; `encode` and
queryStore may fail with an exception message. -/
def search {V M : Type} (encode : String → Except String V)
    (queryStore : V → Nat → Except String (List (List String) × List (List M)))
    (query : String) (n_results : Nat := DEFAULT_N_RESULTS) : SearchResult M :=
  match encode query with
  | .error _ => { documents := [], metadatas := none }
  | .ok query_embedding =>
    match queryStore query_embedding n_results with
    | .error _ => { documents := [], metadatas := none }
    | .ok search_results =>
      { documents := search_results.1, metadatas := some search_results.2 }

end Retriever

/-! ### Answer synthesis (`llm_integration.py`, `LLMIntegration.generate_response`)

The external `llama-run` invocation (`subprocess.Popen` plus
`communicate()`) is embedded as an oracle from the prompt to either an
exception (`error`) or a pair of captured standard-output and
standard-error text.  On success the code logs any stderr content but uses
only stdout: `clean_ansi(output.decode()).strip()`.  On any exception it
returns the fixed fallback string. -/

/-- The fixed fallback string `generate_response` returns when the
invocation raises. -/
def LLM_FALLBACK : String := "Error occurred during LLM processing."

/-- Embeds the prompt construction in `generate_response`. -/
def full_prompt (query context : String) : String :=
  "Using the following rulebook context:\n\n" ++ context ++
    "\n\nAnswer the player's question: " ++ query

/-- Embeds `LLMIntegration.generate_response` (`llm_integration.py` lines
28-56): `invoke` models the external process, returning (stdout, stderr). -/
def generate_response (invoke : String → Except String (String × String))
    (query context : String) : String :=
  match invoke (full_prompt query context) with
  | .error _ => LLM_FALLBACK
  | .ok out_err => pyStrip (clean_ansi out_err.1)

/-! ### The ingestion run (`process_pdfs.py`, `__main__`)

The processed-file ledger is a JSON object mapping file path to MD5 digest,
embedded as an association list with Python-dict update semantics
(overwrite in place, else append).  Hashing (`compute_file_hash`, MD5 of
the file's bytes) and the extract-chunk pipeline inside
`chunk_and_store_pdf` are embedded as function parameters `hashFn` and
`chunksOf` of the file content: the run's control flow — which the claims
are about — never looks inside either.  A source file is a directory entry
name plus the file's content; `os.listdir` yields distinct names, so runs
are stated over lists of files with distinct paths.  The ChromaDB
collection is embedded as the list of records added by `collection.add`.
Each processed or skipped file appends an event; `save_processed_files`,
the single `json.dump` of the ledger after the loop, appends the one
`saved` event. -/

structure PdfFile where
  name : String
  content : String
deriving DecidableEq

/-- Embeds the record `collection.add` stores for one chunk in
`chunk_and_store_pdf`: id `f"{basename}_chunk_{i}"`, the chunk text, and
metadata `{"source": file, "chunk_index": i}`. -/
structure ChunkRecord where
  id : String
  document : String
  source : String
  chunk_index : Nat
deriving DecidableEq

/-- The processed-file ledger (`processed_files.json`): path → digest. -/
abbrev Ledger := List (String × String)

/-- Embeds `processed_files.get(file_path)`: first binding of the key. -/
def ledgerGet : Ledger → String → Option String
  | [], _ => none
  | (k, v) :: rest, key => if k = key then some v else ledgerGet rest key

/-- Embeds `processed_files[file_path] = file_hash`: Python-dict update
(overwrite the existing binding in place, else append). -/
def ledgerSet : Ledger → String → String → Ledger
  | [], key, v => [(key, v)]
  | (k, w) :: rest, key, v =>
    if k = key then (key, v) :: rest else (k, w) :: ledgerSet rest key v

inductive IngestEvent where
  | processed (path : String)
  | skipped (path : String)
  | saved (ledger : Ledger)
deriving DecidableEq

structure IngestState where
  ledger : Ledger
  records : List ChunkRecord
  events : List IngestEvent
deriving DecidableEq

/-- Embeds `os.path.join(PDF_STORE, file_name)`. -/
def file_path (pdf_store name : String) : String := pdf_store ++ "/" ++ name

/-- Embeds `file_name.lower().endswith(".pdf")`. -/
def is_pdf (name : String) : Bool := name.toLower.endsWith ".pdf"

/-- Embeds the storage step of `chunk_and_store_pdf` (`process_pdfs.py`
lines 138-171): each chunk of the extracted text becomes one record with id
`basename_chunk_i` and metadata source/chunk_index.  `chunksOf` stands for
`split_text(extract_text_from_pdf(file))`. -/
def chunkRecordsFor (chunksOf : String → List String) (path name content : String) :
    List ChunkRecord :=
  (chunksOf content).enum.map
    (fun ic =>
      { id := name ++ "_chunk_" ++ toString ic.1, document := ic.2,
        source := path, chunk_index := ic.1 })

/-- Embeds one iteration of the `__main__` loop (`process_pdfs.py` lines
184-198): skip non-`.pdf` names; hash the file; if the ledger's entry for
the path equals the hash, skip, otherwise run `chunk_and_store_pdf` and
record the new fingerprint in the in-memory ledger. -/
def process_file (hashFn : String → String) (chunksOf : String → List String)
    (pdf_store : String) (st : IngestState) (f : PdfFile) : IngestState :=
  if is_pdf f.name = false then st
  else
    if ledgerGet st.ledger (file_path pdf_store f.name) = some (hashFn f.content) then
      { st with events := st.events ++ [IngestEvent.skipped (file_path pdf_store f.name)] }
    else
      { ledger := ledgerSet st.ledger (file_path pdf_store f.name) (hashFn f.content),
        records := st.records ++ chunkRecordsFor chunksOf (file_path pdf_store f.name) f.name f.content,
        events := st.events ++ [IngestEvent.processed (file_path pdf_store f.name)] }

/-- Embeds one full ingestion run (`process_pdfs.py` `__main__`): fold the
per-file step over the directory listing starting from the loaded ledger
and the current collection contents, then `save_processed_files` writes the
final ledger once — the single `saved` event after the loop. -/
def ingest_run (hashFn : String → String) (chunksOf : String → List String)
    (pdf_store : String) (files : List PdfFile) (ledger0 : Ledger)
    (records0 : List ChunkRecord) : IngestState :=
  let final := files.foldl (process_file hashFn chunksOf pdf_store)
    { ledger := ledger0, records := records0, events := [] }
  { final with events := final.events ++ [IngestEvent.saved final.ledger] }

/-! ## Proofs

Helper lemmas first, then one theorem per claim (with a closed witness
where the theorem carries hypotheses). -/

/-! ### Chunker lemmas -/

lemma chunkGo_length_le {max_size step : Nat} (hs : step ≠ 0) :
    ∀ fuel text, text.length ≤ fuel →
      ∀ c ∈ chunkGo max_size step fuel text, c.length ≤ max_size := by
  intro fuel
  induction fuel with
  | zero =>
    intro text hlen c hc
    match text with
    | [] => simp [chunkGo] at hc
  | succ fuel ih =>
    intro text hlen c hc
    match text with
    | [] => simp [chunkGo] at hc
    | a :: as =>
      rw [chunkGo] at hc
      by_cases hsm : (a :: as).length ≤ max_size
      · rw [if_pos hsm] at hc
        exact List.mem_singleton.mp hc ▸ hsm
      · rw [if_neg hsm] at hc
        rcases List.mem_cons.mp hc with h | h
        · rw [h]; exact List.length_take_le max_size (a :: as)
        · refine ih ((a :: as).drop step) ?_ c h
          simp only [List.length_drop]
          simp only [not_le] at hsm
          simp only [List.length_cons] at hlen ⊢
          omega

lemma chunkGo_drop_flatten {max_size overlap : Nat} (h : overlap < max_size) :
    ∀ fuel text, text.length ≤ fuel →
      ((chunkGo max_size (max_size - overlap) fuel text).map
        (fun c => c.drop overlap)).flatten = text.drop overlap := by
  intro fuel
  induction fuel with
  | zero =>
    intro text hlen
    match text with
    | [] => simp [chunkGo]
  | succ fuel ih =>
    intro text hlen
    match text with
    | [] => simp [chunkGo]
    | a :: as =>
      rw [chunkGo]
      by_cases hsm : (a :: as).length ≤ max_size
      · rw [if_pos hsm]; simp
      · rw [if_neg hsm]
        have hrec : (((a :: as).drop (max_size - overlap)).length ≤ fuel) := by
          simp only [List.length_drop]
          simp only [not_le] at hsm
          simp only [List.length_cons] at hlen ⊢
          omega
        simp only [List.map_cons, List.flatten_cons, ih _ hrec]
        rw [List.drop_take, List.drop_drop]
        have h1 : max_size - overlap + overlap = max_size := by omega
        rw [h1]
        have h2 : List.drop max_size (a :: as) =
            List.drop (max_size - overlap) (List.drop overlap (a :: as)) := by
          rw [List.drop_drop]; congr 1; omega
        rw [h2]
        exact List.take_append_drop _ _

/-! ### Extraction lemmas -/

lemma string_foldl_append (l : List String) (a : String) :
    l.foldl (fun r s => r ++ s) a = a ++ String.join l := by
  induction l generalizing a with
  | nil => simp [String.join]
  | cons s t ih =>
    rw [List.foldl_cons, ih]
    conv_rhs => rw [String.join]
    rw [List.foldl_cons, ih]
    simp [String.append_assoc]

lemma string_join_cons (a : String) (l : List String) :
    String.join (a :: l) = a ++ String.join l := by
  simp only [String.join, List.foldl_cons]
  rw [string_foldl_append]
  simp [String.join]

lemma extractPagesFrom_eq (pdf : List Page) :
    ∀ n, extractPagesFrom (n + 1) pdf =
      if pdf.all (fun p => p.extract_text.isSome) then
        some (String.join ((List.enumFrom n pdf).map
          (fun ip => ip.2.extract_text.getD "" ++ "\n(Page" ++ toString (ip.1 + 1) ++ ")\n")))
      else none := by
  induction pdf with
  | nil => intro n; simp [extractPagesFrom, String.join]
  | cons p ps ih =>
    intro n
    cases hpt : p.extract_text with
    | none => simp [extractPagesFrom, hpt]
    | some t =>
      by_cases hall : ps.all (fun p => p.extract_text.isSome)
      · have hrec := ih (n + 1)
        rw [if_pos hall] at hrec
        simp only [extractPagesFrom, hpt, hrec, List.all_cons, hall, Option.isSome_some,
          Bool.and_true, Bool.and_self, if_pos, List.enumFrom_cons, List.map_cons,
          string_join_cons, Option.getD_some]
      · have hrec := ih (n + 1)
        rw [if_neg hall] at hrec
        simp [extractPagesFrom, hpt, hrec, hall]

/-! ### Ledger and ingestion-run lemmas -/

lemma ledgerGet_set_self (l : Ledger) (k v : String) :
    ledgerGet (ledgerSet l k v) k = some v := by
  induction l with
  | nil => simp [ledgerSet, ledgerGet]
  | cons kv rest ih =>
    by_cases hk : kv.1 = k
    · simp [ledgerSet, hk, ledgerGet]
    · simp [ledgerSet, hk, ledgerGet, ih]

lemma ledgerGet_set_ne (l : Ledger) (k v p : String) (h : p ≠ k) :
    ledgerGet (ledgerSet l k v) p = ledgerGet l p := by
  induction l with
  | nil =>
    simp only [ledgerSet, ledgerGet]
    rw [if_neg (fun hkp => h hkp.symm)]
  | cons kv rest ih =>
    by_cases hk : kv.1 = k
    · subst hk
      simp only [ledgerSet, if_pos rfl, ledgerGet]
      rw [if_neg (by simpa using (Ne.symm h)), if_neg (by simpa using (Ne.symm h))]
    · simp only [ledgerSet, if_neg hk, ledgerGet, ih]

lemma process_file_ledgerGet_ne (hashFn : String → String) (chunksOf : String → List String)
    (pdf_store : String) (st : IngestState) (f : PdfFile) (p : String)
    (h : p ≠ file_path pdf_store f.name) :
    ledgerGet (process_file hashFn chunksOf pdf_store st f).ledger p = ledgerGet st.ledger p := by
  unfold process_file
  by_cases hpdf : is_pdf f.name = false
  · rw [if_pos hpdf]
  · rw [if_neg hpdf]
    by_cases hskip : ledgerGet st.ledger (file_path pdf_store f.name) = some (hashFn f.content)
    · rw [if_pos hskip]
    · rw [if_neg hskip]
      exact ledgerGet_set_ne _ _ _ _ h

lemma foldl_ledgerGet_frame (hashFn : String → String) (chunksOf : String → List String)
    (pdf_store : String) (files : List PdfFile) (p : String)
    (h : p ∉ files.map (fun f => file_path pdf_store f.name)) :
    ∀ st : IngestState,
      ledgerGet (files.foldl (process_file hashFn chunksOf pdf_store) st).ledger p =
        ledgerGet st.ledger p := by
  induction files with
  | nil => intro st; rfl
  | cons f rest ih =>
    intro st
    simp only [List.map_cons, List.mem_cons, not_or] at h
    simp only [List.foldl_cons]
    rw [ih h.2, process_file_ledgerGet_ne hashFn chunksOf pdf_store st f p h.1]

lemma process_file_ledgerGet_self (hashFn : String → String) (chunksOf : String → List String)
    (pdf_store : String) (st : IngestState) (f : PdfFile) (hpdf : is_pdf f.name = true) :
    ledgerGet (process_file hashFn chunksOf pdf_store st f).ledger
      (file_path pdf_store f.name) = some (hashFn f.content) := by
  unfold process_file
  rw [if_neg (by simp [hpdf])]
  by_cases hskip : ledgerGet st.ledger (file_path pdf_store f.name) = some (hashFn f.content)
  · rw [if_pos hskip]; exact hskip
  · rw [if_neg hskip]
    exact ledgerGet_set_self _ _ _

lemma foldl_ledger_covers (hashFn : String → String) (chunksOf : String → List String)
    (pdf_store : String) (files : List PdfFile) (f : PdfFile)
    (hf : f ∈ files) (hpdf : is_pdf f.name = true)
    (hnd : (files.map (fun g => file_path pdf_store g.name)).Nodup) :
    ∀ st : IngestState,
      ledgerGet (files.foldl (process_file hashFn chunksOf pdf_store) st).ledger
        (file_path pdf_store f.name) = some (hashFn f.content) := by
  induction files with
  | nil => exact absurd hf (List.not_mem_nil f)
  | cons g rest ih =>
    intro st
    simp only [List.map_cons, List.nodup_cons] at hnd
    simp only [List.foldl_cons]
    rcases List.mem_cons.mp hf with rfl | hmem
    · rw [foldl_ledgerGet_frame hashFn chunksOf pdf_store rest _ hnd.1]
      exact process_file_ledgerGet_self hashFn chunksOf pdf_store st f hpdf
    · exact ih hmem hnd.2 _

lemma process_file_skip (hashFn : String → String) (chunksOf : String → List String)
    (pdf_store : String) (st : IngestState) (f : PdfFile)
    (hskip : ledgerGet st.ledger (file_path pdf_store f.name) = some (hashFn f.content)) :
    (process_file hashFn chunksOf pdf_store st f).records = st.records ∧
      (process_file hashFn chunksOf pdf_store st f).ledger = st.ledger := by
  unfold process_file
  by_cases hpdf : is_pdf f.name = false
  · rw [if_pos hpdf]; exact ⟨rfl, rfl⟩
  · rw [if_neg hpdf, if_pos hskip]; exact ⟨rfl, rfl⟩

lemma foldl_skip_all (hashFn : String → String) (chunksOf : String → List String)
    (pdf_store : String) (files : List PdfFile) :
    ∀ st : IngestState,
      (∀ f ∈ files, is_pdf f.name = true →
        ledgerGet st.ledger (file_path pdf_store f.name) = some (hashFn f.content)) →
      (files.foldl (process_file hashFn chunksOf pdf_store) st).records = st.records ∧
        (files.foldl (process_file hashFn chunksOf pdf_store) st).ledger = st.ledger := by
  induction files with
  | nil => intro st _; exact ⟨rfl, rfl⟩
  | cons f rest ih =>
    intro st h
    simp only [List.foldl_cons]
    have hstep : (process_file hashFn chunksOf pdf_store st f).records = st.records ∧
        (process_file hashFn chunksOf pdf_store st f).ledger = st.ledger := by
      unfold process_file
      by_cases hpdf : is_pdf f.name = false
      · rw [if_pos hpdf]; exact ⟨rfl, rfl⟩
      · rw [if_neg hpdf,
          if_pos (h f (List.mem_cons_self f rest) (by simpa using hpdf))]
        exact ⟨rfl, rfl⟩
    have hrest := ih (process_file hashFn chunksOf pdf_store st f)
      (by intro g hg hgpdf
          rw [hstep.2]
          exact h g (List.mem_cons_of_mem f hg) hgpdf)
    exact ⟨hrest.1.trans hstep.1, hrest.2.trans hstep.2⟩

lemma process_file_events (hashFn : String → String) (chunksOf : String → List String)
    (pdf_store : String) (st : IngestState) (f : PdfFile) :
    ∃ e : List IngestEvent, (process_file hashFn chunksOf pdf_store st f).events =
        st.events ++ e ∧ ∀ l : Ledger, IngestEvent.saved l ∉ e := by
  unfold process_file
  by_cases hpdf : is_pdf f.name = false
  · rw [if_pos hpdf]; exact ⟨[], by simp⟩
  · rw [if_neg hpdf]
    by_cases hskip : ledgerGet st.ledger (file_path pdf_store f.name) = some (hashFn f.content)
    · rw [if_pos hskip]
      exact ⟨[IngestEvent.skipped (file_path pdf_store f.name)], rfl, by simp⟩
    · rw [if_neg hskip]
      exact ⟨[IngestEvent.processed (file_path pdf_store f.name)], rfl, by simp⟩

lemma foldl_events_no_saved (hashFn : String → String) (chunksOf : String → List String)
    (pdf_store : String) (files : List PdfFile) :
    ∀ st : IngestState,
      ∃ evs : List IngestEvent,
        (files.foldl (process_file hashFn chunksOf pdf_store) st).events = st.events ++ evs ∧
          ∀ l : Ledger, IngestEvent.saved l ∉ evs := by
  induction files with
  | nil => intro st; exact ⟨[], by simp⟩
  | cons f rest ih =>
    intro st
    obtain ⟨e, he, hne⟩ := process_file_events hashFn chunksOf pdf_store st f
    obtain ⟨evs, hevs, hnevs⟩ := ih (process_file hashFn chunksOf pdf_store st f)
    refine ⟨e ++ evs, ?_, ?_⟩
    · simp only [List.foldl_cons, hevs, he, List.append_assoc]
    · intro l hl
      rcases List.mem_append.mp hl with h | h
      · exact hne l h
      · exact hnevs l h

/-! ## Claim theorems -/

/-- C1.  The claim (with the spec) says `Retriever.search` embeds the query
with the same embedding model the Ingestion Orchestrator used for the
stored chunks.  The code violates it: `process_pdfs.py` embeds chunks with
`SentenceTransformer('all-MiniLM-L6-v2')` while `retriever.py` embeds
queries with `SentenceTransformer(EMBEDDING_MODEL_NAME)` where `config.py`
sets `EMBEDDING_MODEL_NAME = 'all-MPNET-base-v2'`: the two model
identifiers differ. -/
theorem retriever_query_model_differs_from_ingestion_model :
    retriever_embedding_model_name ≠ ingestion_embedding_model_name := by
  decide

/-- C2.  A document whose current fingerprint equals the ledger's recorded
value for its path is skipped entirely — its processing step adds no chunk
records and leaves the ledger unchanged — and consequently a second
ingestion run over an unchanged document set (distinct paths, as a
directory listing yields) produces no additional chunk records. -/
theorem ingestion_skips_unchanged_and_is_idempotent
    (hashFn : String → String) (chunksOf : String → List String) (pdf_store : String)
    (files : List PdfFile) (ledger0 : Ledger) (records0 : List ChunkRecord)
    (hnd : (files.map (fun f => file_path pdf_store f.name)).Nodup) :
    (∀ (st : IngestState) (f : PdfFile),
      ledgerGet st.ledger (file_path pdf_store f.name) = some (hashFn f.content) →
      (process_file hashFn chunksOf pdf_store st f).records = st.records ∧
        (process_file hashFn chunksOf pdf_store st f).ledger = st.ledger) ∧
    (ingest_run hashFn chunksOf pdf_store files
        (ingest_run hashFn chunksOf pdf_store files ledger0 records0).ledger
        (ingest_run hashFn chunksOf pdf_store files ledger0 records0).records).records =
      (ingest_run hashFn chunksOf pdf_store files ledger0 records0).records := by
  constructor
  · intro st f hskip
    exact process_file_skip hashFn chunksOf pdf_store st f hskip
  · have hcov : ∀ f ∈ files, is_pdf f.name = true →
        ledgerGet (ingest_run hashFn chunksOf pdf_store files ledger0 records0).ledger
          (file_path pdf_store f.name) = some (hashFn f.content) := by
      intro f hf hpdf
      exact foldl_ledger_covers hashFn chunksOf pdf_store files f hf hpdf hnd _
    have h2 := foldl_skip_all hashFn chunksOf pdf_store files
      { ledger := (ingest_run hashFn chunksOf pdf_store files ledger0 records0).ledger,
        records := (ingest_run hashFn chunksOf pdf_store files ledger0 records0).records,
        events := [] }
      (fun f hf hpdf => hcov f hf hpdf)
    exact h2.1

/-- C2 witness: the second-run part of the theorem at a concrete
three-file store (two PDFs, one non-PDF file), identity hash, one chunk per
document, empty initial ledger and collection. -/
theorem ingestion_skips_unchanged_and_is_idempotent_witness :
    ((([⟨"a.pdf", "A"⟩, ⟨"b.PDF", "B"⟩, ⟨"notes.txt", "T"⟩] : List PdfFile).map
        (fun f => file_path "data/pdfs" f.name)).Nodup) ∧
    (ingest_run (fun s => s) (fun s => [s]) "data/pdfs"
        [⟨"a.pdf", "A"⟩, ⟨"b.PDF", "B"⟩, ⟨"notes.txt", "T"⟩]
        (ingest_run (fun s => s) (fun s => [s]) "data/pdfs"
          [⟨"a.pdf", "A"⟩, ⟨"b.PDF", "B"⟩, ⟨"notes.txt", "T"⟩] [] []).ledger
        (ingest_run (fun s => s) (fun s => [s]) "data/pdfs"
          [⟨"a.pdf", "A"⟩, ⟨"b.PDF", "B"⟩, ⟨"notes.txt", "T"⟩] [] []).records).records =
      (ingest_run (fun s => s) (fun s => [s]) "data/pdfs"
        [⟨"a.pdf", "A"⟩, ⟨"b.PDF", "B"⟩, ⟨"notes.txt", "T"⟩] [] []).records :=
  ⟨by decide,
    (ingestion_skips_unchanged_and_is_idempotent (fun s => s) (fun s => [s]) "data/pdfs"
      [⟨"a.pdf", "A"⟩, ⟨"b.PDF", "B"⟩, ⟨"notes.txt", "T"⟩] [] [] (by decide)).2⟩

/-- C3 counterexample.  A one-page document with plain text "A" and one
table row with cells "x" and "y": the code's extractor returns
"A\n(Page1)" — the table is never extracted or rendered — while the
extraction the claim describes would also include the rendered grid
"x | y". -/
theorem extract_ignores_tables_counterexample :
    extract_text_from_pdf
        [{ extract_text := some "A", extract_tables := [[[some "x", some "y"]]] }] ≠
      some (specExtractWithTables
        [{ extract_text := some "A", extract_tables := [[[some "x", some "y"]]] }]) := by
  decide

/-- C3 (amended).  For every input document, `extract_text_from_pdf`
returns, trimmed of leading/trailing whitespace, the in-order concatenation
over pages of the page's plain text followed by the page-boundary marker
`"\n(PageN)\n"`; tabular structures are not rendered, and extraction fails
when any page's plain text is absent. -/
theorem extract_text_matches_spec_without_tables (pdf : List Page) :
    extract_text_from_pdf pdf = specExtractNoTables pdf := by
  have h := extractPagesFrom_eq pdf 0
  simp only [Nat.zero_add] at h
  unfold extract_text_from_pdf specExtractNoTables
  rw [h]
  by_cases hall : pdf.all (fun p => p.extract_text.isSome)
  · rw [if_pos hall, if_pos hall]
    simp [List.enum]
  · rw [if_neg hall, if_neg hall]
    rfl

/-- C4.  Modelled from the spec (the Chunker itself is third-party library
code): for any text and any parameters with `overlap < max_size`,
concatenating the chunks with the overlapping characters removed — the
first chunk whole, each later chunk without its leading `overlap`
characters — reconstructs the original text exactly. -/
theorem chunk_reassemble_reconstructs (text : List Char) (max_size overlap : Nat)
    (h : overlap < max_size) :
    reassemble overlap (chunk text max_size overlap) = text := by
  unfold chunk
  match text with
  | [] => rfl
  | a :: as =>
    rw [List.length_cons, chunkGo]
    by_cases hsm : (a :: as).length ≤ max_size
    · rw [if_pos hsm]
      simp [reassemble]
    · rw [if_neg hsm]
      have hlen : (((a :: as).drop (max_size - overlap)).length ≤ as.length) := by
        simp only [List.length_drop, List.length_cons]
        simp only [not_le, List.length_cons] at hsm
        omega
      have hfl := chunkGo_drop_flatten h as.length ((a :: as).drop (max_size - overlap)) hlen
      simp only [reassemble, hfl, List.drop_drop]
      have h1 : max_size - overlap + overlap = max_size := by omega
      rw [h1]
      exact List.take_append_drop _ _

/-- C4 witness: the theorem at `text = "abcdefgh"`, `max_size = 4`,
`overlap = 2`. -/
theorem chunk_reassemble_reconstructs_witness :
    2 < 4 ∧ reassemble 2 (chunk "abcdefgh".data 4 2) = "abcdefgh".data :=
  ⟨by decide, chunk_reassemble_reconstructs "abcdefgh".data 4 2 (by decide)⟩

/-- C5.  Modelled from the spec (the Chunker itself is third-party library
code): for any text and any parameters with `overlap < max_size`, every
produced chunk has length at most `max_size` (the model splits at character
granularity, so no atomic token ever exceeds the bound and the claim's
exception clause is never needed). -/
theorem chunk_length_le_max_size (text : List Char) (max_size overlap : Nat)
    (h : overlap < max_size) :
    ∀ c ∈ chunk text max_size overlap, c.length ≤ max_size :=
  chunkGo_length_le (by omega) text.length text le_rfl

/-- C5 witness: the theorem at `text = "abcdefgh"`, `max_size = 4`,
`overlap = 2`, chunk `['a','b','c','d']`. -/
theorem chunk_length_le_max_size_witness :
    2 < 4 ∧ (['a', 'b', 'c', 'd'] : List Char).length ≤ 4 :=
  ⟨by decide, chunk_length_le_max_size "abcdefgh".data 4 2 (by decide)
    ['a', 'b', 'c', 'd'] (by decide)⟩

/-- C6.  If any internal step of `Retriever.search` fails — the query
embedding raises, or the Vector Store query raises (store unreachable,
query error) — `search` returns the empty result `{"documents": []}`
instead of propagating the exception.  The embedding is a pure function of
read-only oracles: the method performs no write anywhere, so no state is
mutated on any path. -/
theorem search_on_failure_returns_empty {V M : Type}
    (encode : String → Except String V)
    (queryStore : V → Nat → Except String (List (List String) × List (List M)))
    (query : String) (n_results : Nat)
    (h : (∃ e, encode query = Except.error e) ∨
      (∃ v e, encode query = Except.ok v ∧ queryStore v n_results = Except.error e)) :
    Retriever.search encode queryStore query n_results =
      { documents := [], metadatas := none } := by
  unfold Retriever.search
  rcases h with ⟨e, he⟩ | ⟨v, e, hv, hq⟩
  · rw [he]
  · simp only [hv, hq]

/-- C6 witness: the theorem with an encoder that raises (vector store
unreachable) on the retriever's own test query, at the default result
count. -/
theorem search_on_failure_returns_empty_witness :
    Retriever.search (fun _ => (Except.error "vector store unreachable" : Except String Unit))
      (fun _ _ => (Except.error "unreachable" : Except String (List (List String) × List (List Unit))))
      "How do critical hits work?" DEFAULT_N_RESULTS =
      { documents := [], metadatas := none } :=
  search_on_failure_returns_empty _ _ _ _ (Or.inl ⟨"vector store unreachable", rfl⟩)

/-- C7.  After an ingestion run over documents with distinct paths, the
ledger the run persists maps every processed document's path to its freshly
computed fingerprint, and the run's event trace contains exactly one save —
the last event — whose saved ledger is that final ledger (the single
`json.dump` after the loop). -/
theorem ledger_fresh_after_run_and_saved_once_last
    (hashFn : String → String) (chunksOf : String → List String) (pdf_store : String)
    (files : List PdfFile) (ledger0 : Ledger) (records0 : List ChunkRecord)
    (hnd : (files.map (fun f => file_path pdf_store f.name)).Nodup) :
    (∀ f ∈ files, is_pdf f.name = true →
      ledgerGet (ingest_run hashFn chunksOf pdf_store files ledger0 records0).ledger
        (file_path pdf_store f.name) = some (hashFn f.content)) ∧
    (∃ evs : List IngestEvent,
      (ingest_run hashFn chunksOf pdf_store files ledger0 records0).events =
          evs ++ [IngestEvent.saved
            (ingest_run hashFn chunksOf pdf_store files ledger0 records0).ledger] ∧
        ∀ l : Ledger, IngestEvent.saved l ∉ evs) := by
  constructor
  · intro f hf hpdf
    exact foldl_ledger_covers hashFn chunksOf pdf_store files f hf hpdf hnd _
  · obtain ⟨evs, hevs, hno⟩ := foldl_events_no_saved hashFn chunksOf pdf_store files
      { ledger := ledger0, records := records0, events := [] }
    refine ⟨evs, ?_, hno⟩
    have hevents : (ingest_run hashFn chunksOf pdf_store files ledger0 records0).events =
        (files.foldl (process_file hashFn chunksOf pdf_store)
          { ledger := ledger0, records := records0, events := [] }).events ++
          [IngestEvent.saved
            (ingest_run hashFn chunksOf pdf_store files ledger0 records0).ledger] := rfl
    rw [hevents, hevs]
    simp

/-- C7 witness: the theorem at a concrete three-file store (two PDFs, one
non-PDF), identity hash, one chunk per document, empty initial ledger. -/
theorem ledger_fresh_after_run_and_saved_once_last_witness :
    ((([⟨"a.pdf", "A"⟩, ⟨"b.PDF", "B"⟩, ⟨"notes.txt", "T"⟩] : List PdfFile).map
        (fun f => file_path "data/pdfs" f.name)).Nodup) ∧
    ((∀ f ∈ ([⟨"a.pdf", "A"⟩, ⟨"b.PDF", "B"⟩, ⟨"notes.txt", "T"⟩] : List PdfFile),
        is_pdf f.name = true →
        ledgerGet (ingest_run (fun s => s) (fun s => [s]) "data/pdfs"
            [⟨"a.pdf", "A"⟩, ⟨"b.PDF", "B"⟩, ⟨"notes.txt", "T"⟩] [] []).ledger
          (file_path "data/pdfs" f.name) = some f.content) ∧
    (∃ evs : List IngestEvent,
      (ingest_run (fun s => s) (fun s => [s]) "data/pdfs"
          [⟨"a.pdf", "A"⟩, ⟨"b.PDF", "B"⟩, ⟨"notes.txt", "T"⟩] [] []).events =
          evs ++ [IngestEvent.saved
            (ingest_run (fun s => s) (fun s => [s]) "data/pdfs"
              [⟨"a.pdf", "A"⟩, ⟨"b.PDF", "B"⟩, ⟨"notes.txt", "T"⟩] [] []).ledger] ∧
        ∀ l : Ledger, IngestEvent.saved l ∉ evs)) :=
  ⟨by decide,
    ledger_fresh_after_run_and_saved_once_last (fun s => s) (fun s => [s]) "data/pdfs"
      [⟨"a.pdf", "A"⟩, ⟨"b.PDF", "B"⟩, ⟨"notes.txt", "T"⟩] [] [] (by decide)⟩

/-- C8.  If invoking the external text-generation process raises,
`generate_response` returns the fixed fallback string instead of
propagating; if the invocation returns captured output, the returned value
is the cleaned, trimmed standard-output text, whatever the process wrote to
its error stream (stderr is logged and does not affect the result). -/
theorem generate_response_error_handling
    (invoke : String → Except String (String × String)) (query context : String) :
    (∀ e, invoke (full_prompt query context) = Except.error e →
      generate_response invoke query context = LLM_FALLBACK) ∧
    (∀ out err, invoke (full_prompt query context) = Except.ok (out, err) →
      generate_response invoke query context = pyStrip (clean_ansi out)) := by
  constructor
  · intro e he
    unfold generate_response
    rw [he]
  · intro out err hok
    unfold generate_response
    rw [hok]

/-- C8 witness: the theorem at a raising invocation (fallback returned) and
at an invocation that writes to stderr but produces ANSI-coloured output
(cleaned, trimmed output returned). -/
theorem generate_response_error_handling_witness :
    generate_response (fun _ => Except.error "llama binary missing") "q" "ctx" = LLM_FALLBACK ∧
    generate_response (fun _ => Except.ok ("\x1b[31mHello\x1b[0m ", "ggml warning")) "q" "ctx" =
      pyStrip (clean_ansi "\x1b[31mHello\x1b[0m ") :=
  ⟨(generate_response_error_handling (fun _ => Except.error "llama binary missing") "q" "ctx").1
      "llama binary missing" rfl,
    (generate_response_error_handling
        (fun _ => Except.ok ("\x1b[31mHello\x1b[0m ", "ggml warning")) "q" "ctx").2
      "\x1b[31mHello\x1b[0m " "ggml warning" rfl⟩

/-- C9.  `clean_ansi` applied to `"\x1b[31mHello\x1b[0m"` yields exactly
`"Hello"`: both ANSI escape sequences are removed and the surrounded text
is preserved. -/
theorem clean_ansi_red_hello : clean_ansi "\x1b[31mHello\x1b[0m" = "Hello" := by
  decide

/-- C10.  A document containing at least one page whose text extraction
yields an absent result (rather than a string) makes
`extract_text_from_pdf` fail — the Python code concatenates
`page.extract_text()` without a null guard, so `None + str` raises — and no
text for the remaining pages is returned. -/
theorem extract_fails_on_missing_page_text (pdf : List Page)
    (h : ∃ p ∈ pdf, p.extract_text = none) :
    extract_text_from_pdf pdf = none := by
  have hall : pdf.all (fun p => p.extract_text.isSome) = false := by
    obtain ⟨p, hp, hn⟩ := h
    exact List.all_eq_false.mpr ⟨p, hp, by simp [hn]⟩
  have heq := extractPagesFrom_eq pdf 0
  simp only [Nat.zero_add] at heq
  unfold extract_text_from_pdf
  rw [heq, if_neg (by simp [hall])]
  rfl

/-- C10 witness: a two-page document whose second page has no extractable
text. -/
theorem extract_fails_on_missing_page_text_witness :
    extract_text_from_pdf
      [{ extract_text := some "A", extract_tables := [] },
        { extract_text := none, extract_tables := [] }] = none :=
  extract_fails_on_missing_page_text _
    ⟨{ extract_text := none, extract_tables := [] }, by decide, rfl⟩

end AIGM
